import Mathlib


/-!
Verification of the chunked RSA file-encryption pipeline and the RSA key
lifecycle manager, shallowly embedded from `src/backend/file_manager.py` and
`src/backend/rsa_key_manager.py`.

Bytes are modelled as `Nat`, files as `List Nat`.  External collaborators
(the `cryptography` library primitives and the file system) are abstracted
as explicit function parameters.  Parts of the repository that are not
under `src/` (`backend/constants.py`, `backend/chunk_encrypter.py`) are
modelled from the spec and marked as such in their doc comments.
-/

/-- One notification emitted on the signal channel by the processing loop:
`update_processed_bytes(len(chunk))` (progress), `operation_completed`, or
`critical_error(input_path, message)`. -/
inductive Notification where
  | progress (delta : Nat)
  | completed
  | error (source : String) (msg : String)
deriving DecidableEq

/-- How a processing session ended: the `break`/`operation_completed` path,
the early `return` on the stop flag, or the `except` path. -/
inductive Outcome where
  | completed
  | cancelled
  | failed
deriving DecidableEq

/-- Observable result of one `_process_file` run: the bytes written to the
output file, the notifications emitted in order, and how the session ended. -/
structure RunResult where
  out : List Nat
  notifs : List Notification
  outcome : Outcome
deriving DecidableEq

/-- Shallow embedding of the `while True` loop of `FileManager._process_file`
together with its surrounding `try`/`except`.  `stop` gives the value of
`self._stop_flag` as observed at each iteration (the flag is written from
outside the loop, so it is a schedule over iteration numbers); `handler` is
the `chunk_handler` callable, returning `Except.error` where the source
callable would raise.  Each iteration checks the stop flag, reads
`input.take chunk_size`, breaks on an empty read emitting
`operation_completed`, and otherwise writes the processed chunk and emits
`update_processed_bytes(len(chunk))`; a raising handler is caught at the
loop boundary and converted into `critical_error(input_file_path, e)`. -/
def _process_file (stop : Nat → Bool) (handler : List Nat → Except String (List Nat))
    (chunk_size : Nat) (input_file_path : String) (input : List Nat) (iter : Nat) :
    RunResult :=
  if stop iter then
    ⟨[], [], Outcome.cancelled⟩
  else if h : input.take chunk_size = [] then
    ⟨[], [Notification.completed], Outcome.completed⟩
  else
    match handler (input.take chunk_size) with
    | Except.error e => ⟨[], [Notification.error input_file_path e], Outcome.failed⟩
    | Except.ok processed_chunk =>
        let rest := _process_file stop handler chunk_size input_file_path
          (input.drop chunk_size) (iter + 1)
        ⟨processed_chunk ++ rest.out,
         Notification.progress (input.take chunk_size).length :: rest.notifs,
         rest.outcome⟩
termination_by input.length
decreasing_by
  have h0 : ¬(input = [] ∨ chunk_size = 0) := by
    intro hc
    rcases hc with hc | hc <;> simp [hc] at h
  push_neg at h0
  have h1 : input.length ≠ 0 := by
    intro hz
    exact h0.1 (List.length_eq_zero.mp hz)
  simp only [List.length_drop]
  omega

/-- The successive `chunk_size`-byte slices of a byte list, exactly as the
read loop of `_process_file` produces them (an empty read terminates the
sequence, so `chunksOf 0 l = []`). -/
def chunksOf (chunk_size : Nat) (l : List Nat) : List (List Nat) :=
  if h : l.take chunk_size = [] then []
  else l.take chunk_size :: chunksOf chunk_size (l.drop chunk_size)
termination_by l.length
decreasing_by
  have h0 : ¬(l = [] ∨ chunk_size = 0) := by
    intro hc
    rcases hc with hc | hc <;> simp [hc] at h
  push_neg at h0
  have h1 : l.length ≠ 0 := by
    intro hz
    exact h0.1 (List.length_eq_zero.mp hz)
  simp only [List.length_drop]
  omega

/-- UTF-8 bytes of a string, modelling Python's `s.encode("utf-8")`. -/
def utf8Bytes (s : String) : List Nat :=
  s.toUTF8.toList.map (fun b => b.toNat)

/-- The `encryption_algorithm` argument passed to `private_key.private_bytes`
by `save_private_key_to_file`: either `serialization.NoEncryption()` or
`serialization.BestAvailableEncryption(password.encode("utf-8"))`. -/
inductive EncryptionAlgorithm where
  | NoEncryption
  | BestAvailableEncryption (pw : List Nat)
deriving DecidableEq

/-- The encryption choice made by `save_private_key_to_file`:
`BestAvailableEncryption(password.encode("utf-8")) if password else
NoEncryption()`.  Python truthiness makes both `None` and the empty string
falsy, so both select `NoEncryption`. -/
def save_encryption (password : Option String) : EncryptionAlgorithm :=
  match password with
  | none => EncryptionAlgorithm.NoEncryption
  | some s =>
      if s.isEmpty then EncryptionAlgorithm.NoEncryption
      else EncryptionAlgorithm.BestAvailableEncryption (utf8Bytes s)

/-- Embedding of `RsaKeyManager.save_private_key_to_file`.  The external
`cryptography` primitives are abstracted: `generated_key` is the fresh key
`rsa.generate_private_key(Rsa.PUBLIC_EXPONENT, Rsa.KEY_SIZE)` would return
(the source calls it exactly when `private_key` is falsy, i.e. `None`), and
`private_bytes` is `key.private_bytes(PEM, PKCS8, encryption)`.  The result
is the byte string written to `output_pem_file_path` together with the key
that was serialized. -/
def save_private_key_to_file {K : Type} (generated_key : K)
    (private_bytes : K → EncryptionAlgorithm → List Nat)
    (output_pem_file_path : String) (password : Option String)
    (private_key : Option K) : List Nat × K :=
  let key := match private_key with
    | none => generated_key
    | some k => k
  (private_bytes key (save_encryption password), key)

/-- Failure kinds raised by the key manager, as the spec's taxonomy names
them: `FileNotFoundError` re-raised with a path message (`NotFoundError`),
the remediation-message `Exception` wrappers (`FormatError`), and an
underlying library exception propagated without any wrapping. -/
inductive KmFailure where
  | notFoundError (msg : String)
  | formatError (msg : String)
  | underlyingError (msg : String)
deriving DecidableEq

/-- Message of the `FileNotFoundError` re-raised by
`load_private_key_from_file`. -/
def file_not_found_msg (pem_file_path : String) : String :=
  "Private key file not found: " ++ pem_file_path

/-- Remediation message of the `Exception` raised by
`load_private_key_from_file` on any non-`FileNotFoundError` failure. -/
def load_private_format_msg (e : String) : String :=
  "Failed to process private key. Please check file format and try again.\n\nAdditional Info:\n " ++ e

/-- Remediation message of the `Exception` raised by
`serialize_public_key` on any failure. -/
def serialize_public_format_msg (e : String) : String :=
  "Failed to serialize public key, most likely key was corrupted, or you made a mistake, when provided the key.\nPlease check your input, and try again.\n\nAdditional Info:\n " ++ e

/-- Embedding of `RsaKeyManager.load_private_key_from_file`.  The file
system is abstracted as `fs` (path to stored bytes, `none` when the file is
absent and `open` raises `FileNotFoundError`);
`serialization.load_pem_private_key` is abstracted as `load_pem_private_key`
(returning `Except.error` where the library raises).  A missing file is
re-raised as `FileNotFoundError` with a path message; any other failure is
re-raised as a remediation-message `Exception`. -/
def load_private_key_from_file {K : Type} (fs : String → Option (List Nat))
    (load_pem_private_key : List Nat → Option (List Nat) → Except String K)
    (pem_file_path : String) (password : Option String) : Except KmFailure K :=
  match fs pem_file_path with
  | none => Except.error (KmFailure.notFoundError (file_not_found_msg pem_file_path))
  | some contents =>
      match load_pem_private_key contents (password.map utf8Bytes) with
      | Except.ok k => Except.ok k
      | Except.error e => Except.error (KmFailure.formatError (load_private_format_msg e))

/-- Embedding of `RsaKeyManager.serialize_public_key` (parse a public key
from in-memory PEM text): `load_pem_public_key(public_key.encode("utf-8"))`
inside a `try`/`except` that wraps every failure in a remediation-message
`Exception`. -/
def serialize_public_key {K : Type} (load_pem_public_key : List Nat → Except String K)
    (public_key : String) : Except KmFailure K :=
  match load_pem_public_key (utf8Bytes public_key) with
  | Except.ok k => Except.ok k
  | Except.error e => Except.error (KmFailure.formatError (serialize_public_format_msg e))

/-- Embedding of `RsaKeyManager.serialize_private_key` (parse a private key
from in-memory PEM text): `load_pem_private_key(private_key.encode("utf-8"),
password)` with NO surrounding `try`/`except` — a library failure
propagates to the caller unwrapped. -/
def serialize_private_key {K : Type}
    (load_pem_private_key : List Nat → Option (List Nat) → Except String K)
    (private_key : String) (password : Option String) : Except KmFailure K :=
  match load_pem_private_key (utf8Bytes private_key) (password.map utf8Bytes) with
  | Except.ok k => Except.ok k
  | Except.error e => Except.error (KmFailure.underlyingError e)

/-- Whether a key-manager result is a failure of the `FormatError` kind. -/
def isFormatFailure {K : Type} : Except KmFailure K → Bool
  | Except.error (KmFailure.formatError _) => true
  | _ => false

/-- Modelled from the spec: `backend/constants.py` (class `Size`) is not
under `src/`; spec §8 fixes the encryption chunk size at 446 bytes (the
OAEP/SHA-256 capacity of a 4096-bit key). -/
def Size.ENCRYPTION_CHUNK : Nat := 446

/-- Modelled from the spec: `backend/constants.py` (class `Size`) is not
under `src/`; spec §8 fixes the decryption chunk size at 512 bytes (the
modulus byte length of a 4096-bit key). -/
def Size.DECRYPTION_CHUNK : Nat := 512

/-- The `FileManager` state the claims are about: the cooperative stop flag
`self._stop_flag`, initialized to `False`, set by `stop_process_request`,
read by `_process_file`, and never written anywhere else in the class. -/
structure FileManager where
  _stop_flag : Bool
deriving DecidableEq

/-- Embedding of `FileManager.stop_process_request`: `self._stop_flag = True`. -/
def FileManager.stop_process_request (fm : FileManager) : FileManager :=
  { fm with _stop_flag := true }

/-- Embedding of `FileManager.encrypt_file`.  Modelled from the spec where
it depends on `backend/chunk_encrypter.py`, which is not under `src/`:
`encrypt_chunk` stands for `ChunkEncrypter(public_key=public_key).encrypt_chunk`
(spec §4.2).  The method runs `_process_file` with that handler and
`Size.ENCRYPTION_CHUNK`; it never writes `_stop_flag`, so the manager state
is returned unchanged and the run observes the flag's current value. -/
def FileManager.encrypt_file (fm : FileManager)
    (input_file_path output_file_path : String)
    (encrypt_chunk : List Nat → Except String (List Nat))
    (input : List Nat) : FileManager × RunResult :=
  (fm, _process_file (fun _ => fm._stop_flag) encrypt_chunk Size.ENCRYPTION_CHUNK
    input_file_path input 0)

/-- Embedding of `FileManager.decrypt_file`.  Modelled from the spec where
it depends on `backend/chunk_encrypter.py`, which is not under `src/`:
`decrypt_chunk` stands for `ChunkEncrypter(private_key=private_key).decrypt_chunk`
(spec §4.2).  The method runs `_process_file` with that handler and
`Size.DECRYPTION_CHUNK`; it never writes `_stop_flag`. -/
def FileManager.decrypt_file (fm : FileManager)
    (input_file_path output_file_path : String)
    (decrypt_chunk : List Nat → Except String (List Nat))
    (input : List Nat) : FileManager × RunResult :=
  (fm, _process_file (fun _ => fm._stop_flag) decrypt_chunk Size.DECRYPTION_CHUNK
    input_file_path input 0)

/-- Whether a notification is the `operation_completed` signal. -/
def isCompletedNotif : Notification → Bool
  | Notification.completed => true
  | _ => false

/-- Whether a notification is a `critical_error` signal. -/
def isErrorNotif : Notification → Bool
  | Notification.error _ _ => true
  | _ => false

/-- Whether a notification is an `update_processed_bytes` signal. -/
def isProgressNotif : Notification → Bool
  | Notification.progress _ => true
  | _ => false

/-- The deltas carried by the progress notifications of a run, in emission
order. -/
def progressDeltas (l : List Notification) : List Nat :=
  l.filterMap (fun n => match n with
    | Notification.progress d => some d
    | _ => none)

/-- Toy chunk cipher used to exercise the round-trip theorem: pad the chunk
to 512 bytes with zeros and a one-byte marker. -/
def toyE (c : List Nat) : List Nat :=
  List.replicate (511 - c.length) 0 ++ 1 :: c

/-- Inverse of `toyE`: strip the zero padding and the marker byte. -/
def toyD (ct : List Nat) : List Nat :=
  (ct.dropWhile (fun b => b == 0)).drop 1

/-- C2 counterexample: calling `save_private_key_to_file` with the
empty-string passphrase chooses `NoEncryption` — Python's `if password` is
falsy on `""` — so the key bytes are written unencrypted even though a
passphrase was supplied, contradicting the claim. -/
theorem C2_counterexample :
    save_encryption (some "") = EncryptionAlgorithm.NoEncryption ∧
    (save_private_key_to_file 0 (fun k e => [(match e with
        | EncryptionAlgorithm.NoEncryption => 0
        | EncryptionAlgorithm.BestAvailableEncryption _ => 1), k])
      "key.pem" (some "") (some 7)).fst = [0, 7] := by
  constructor <;> rfl

/-- C2 (amended): the private key bytes written by `save_private_key_to_file`
are the serialization of the saved key under the chosen encryption, and that
choice is `NoEncryption` exactly when the passphrase is absent OR the empty
string; any non-empty passphrase wraps the key in password-based encryption
keyed by its UTF-8 bytes. -/
theorem C2_amended : ∀ (K : Type) (generated_key : K)
    (private_bytes : K → EncryptionAlgorithm → List Nat)
    (path : String) (password : Option String) (private_key : Option K),
    (save_private_key_to_file generated_key private_bytes path password private_key).fst
      = private_bytes
          (save_private_key_to_file generated_key private_bytes path password private_key).snd
          (save_encryption password)
    ∧ (save_encryption password = EncryptionAlgorithm.NoEncryption
        ↔ (password = none ∨ password = some ""))
    ∧ (∀ s : String, password = some s → ¬s.isEmpty →
        save_encryption password = EncryptionAlgorithm.BestAvailableEncryption (utf8Bytes s)) := by
  intro K generated_key private_bytes path password private_key
  refine ⟨rfl, ?_, ?_⟩
  · cases password with
    | none => simp [save_encryption]
    | some s =>
        simp only [save_encryption, Option.some.injEq]
        by_cases hs : s.isEmpty
        · have hse : s = "" := (String.isEmpty_iff s).mp hs
          rw [if_pos hs]
          simp [hse]
        · have hne : s ≠ "" := fun he => hs ((String.isEmpty_iff s).mpr he)
          rw [if_neg hs]
          simp [hne]
  · intro s hps hs
    subst hps
    simp [save_encryption, hs]

/-- C2 amended witness: with passphrase "secret" the chosen encryption is
password-based with the UTF-8 bytes of "secret". -/
theorem C2_amended_witness :
    (some "secret" : Option String) = some "secret" ∧ ¬("secret".isEmpty) ∧
    save_encryption (some "secret")
      = EncryptionAlgorithm.BestAvailableEncryption (utf8Bytes "secret") := by
  refine ⟨rfl, by decide, ?_⟩
  exact (C2_amended Nat 0 (fun _ _ => []) "p" (some "secret") none).2.2 "secret" rfl (by decide)

/-- C10: calling `save_private_key_to_file` with no `private_key` argument
(`None`) does not fail: the source generates a fresh RSA private key (with
the configured `Rsa.PUBLIC_EXPONENT` and `Rsa.KEY_SIZE`, abstracted here as
`generated_key`) and writes that newly generated key's PEM serialization to
the given path; when a key is supplied, that key is the one serialized. -/
theorem C10_save_generates_fresh_key : ∀ (K : Type) (generated_key : K)
    (private_bytes : K → EncryptionAlgorithm → List Nat)
    (path : String) (password : Option String),
    save_private_key_to_file generated_key private_bytes path password none
      = (private_bytes generated_key (save_encryption password), generated_key)
    ∧ ∀ k : K, save_private_key_to_file generated_key private_bytes path password (some k)
      = (private_bytes k (save_encryption password), k) := by
  intro K generated_key private_bytes path password
  exact ⟨rfl, fun k => rfl⟩

/-- C8: `load_private_key_from_file` fails with the `NotFoundError` kind
exactly when the key file is absent, fails with the (distinct,
remediation-message) `FormatError` kind exactly when the stored PEM fails to
parse under the supplied passphrase, and on success returns exactly the key
parsed from the stored file contents. -/
theorem C8_load_private_failure_semantics : ∀ (K : Type)
    (fs : String → Option (List Nat))
    (load_pem_private_key : List Nat → Option (List Nat) → Except String K)
    (pem_file_path : String) (password : Option String),
    ((∃ m, load_private_key_from_file fs load_pem_private_key pem_file_path password
        = Except.error (KmFailure.notFoundError m)) ↔ fs pem_file_path = none)
    ∧ ((∃ m, load_private_key_from_file fs load_pem_private_key pem_file_path password
        = Except.error (KmFailure.formatError m))
      ↔ ∃ contents, fs pem_file_path = some contents
          ∧ ∃ e, load_pem_private_key contents (password.map utf8Bytes) = Except.error e)
    ∧ (∀ k : K, load_private_key_from_file fs load_pem_private_key pem_file_path password
        = Except.ok k
      ↔ ∃ contents, fs pem_file_path = some contents
          ∧ load_pem_private_key contents (password.map utf8Bytes) = Except.ok k) := by
  intro K fs load_pem_private_key pem_file_path password
  cases hfs : fs pem_file_path with
  | none => simp [load_private_key_from_file, hfs]
  | some contents =>
      cases hp : load_pem_private_key contents (password.map utf8Bytes) with
      | ok k => simp [load_private_key_from_file, hfs, hp]
      | error e => simp [load_private_key_from_file, hfs, hp]

/-- C7 counterexample: on a malformed in-memory PEM, `serialize_private_key`
propagates the underlying library error unwrapped — it is NOT the
`FormatError` kind — while `serialize_public_key` on the same failing input
does wrap it in the remediation-message `FormatError`; so the failure
semantics of private-text parsing are not identical to the file-loading
path. -/
theorem C7_counterexample :
    serialize_private_key (fun _ _ => (Except.error "invalid PEM" : Except String Nat))
        "not a key" none
      = Except.error (KmFailure.underlyingError "invalid PEM")
    ∧ isFormatFailure (serialize_private_key
        (fun _ _ => (Except.error "invalid PEM" : Except String Nat)) "not a key" none) = false
    ∧ isFormatFailure (serialize_public_key
        (fun _ => (Except.error "invalid PEM" : Except String Nat)) "not a key") = true
    ∧ isFormatFailure (load_private_key_from_file (fun _ => some [0])
        (fun _ _ => (Except.error "invalid PEM" : Except String Nat)) "k.pem" none) = true := by
  refine ⟨rfl, rfl, rfl, rfl⟩

/-- C7 (amended): the two in-memory parsers differ: `serialize_public_key`
wraps every loader failure in the `FormatError` kind with the remediation
message, but `serialize_private_key` propagates the loader's failure
unwrapped (never as `FormatError`). -/
theorem C7_parse_from_text_semantics : ∀ (K : Type)
    (load_pem_private_key : List Nat → Option (List Nat) → Except String K)
    (load_pem_public_key : List Nat → Except String K)
    (text : String) (password : Option String) (e : String),
    load_pem_private_key (utf8Bytes text) (password.map utf8Bytes) = Except.error e →
    load_pem_public_key (utf8Bytes text) = Except.error e →
    serialize_private_key load_pem_private_key text password
        = Except.error (KmFailure.underlyingError e)
    ∧ isFormatFailure (serialize_private_key load_pem_private_key text password) = false
    ∧ serialize_public_key load_pem_public_key text
        = Except.error (KmFailure.formatError (serialize_public_format_msg e)) := by
  intro K load_pem_private_key load_pem_public_key text password e hpriv hpub
  refine ⟨?_, ?_, ?_⟩
  · simp [serialize_private_key, hpriv]
  · simp [serialize_private_key, hpriv, isFormatFailure]
  · simp [serialize_public_key, hpub]

/-- C7 witness: concrete failing loaders exercising the amended theorem. -/
theorem C7_parse_from_text_witness :
    ((fun _ _ => (Except.error "bad" : Except String Nat)) (utf8Bytes "x")
        ((none : Option String).map utf8Bytes) = Except.error "bad")
    ∧ serialize_private_key (fun _ _ => (Except.error "bad" : Except String Nat)) "x" none
        = Except.error (KmFailure.underlyingError "bad")
    ∧ isFormatFailure (serialize_private_key
        (fun _ _ => (Except.error "bad" : Except String Nat)) "x" none) = false
    ∧ serialize_public_key (fun _ => (Except.error "bad" : Except String Nat)) "x"
        = Except.error (KmFailure.formatError (serialize_public_format_msg "bad")) := by
  refine ⟨rfl, ?_⟩
  exact C7_parse_from_text_semantics Nat (fun _ _ => Except.error "bad")
    (fun _ => Except.error "bad") "x" none "bad" rfl rfl

theorem chunksOf_join (chunk_size : Nat) (hcs : 0 < chunk_size) :
    ∀ l : List Nat, (chunksOf chunk_size l).flatten = l := by
  intro l
  induction l using chunksOf.induct chunk_size with
  | case1 l h =>
      have hl : l = [] := by
        cases l with
        | nil => rfl
        | cons a as =>
            cases chunk_size with
            | zero => omega
            | succ k => simp at h
      rw [chunksOf]
      simp [h, hl]
  | case2 l h ih =>
      rw [chunksOf]
      simp only [dif_neg h]
      rw [List.flatten_cons, ih, List.take_append_drop]

theorem chunksOf_mem (chunk_size : Nat) :
    ∀ l : List Nat, ∀ c ∈ chunksOf chunk_size l, c ≠ [] ∧ c.length ≤ chunk_size := by
  intro l
  induction l using chunksOf.induct chunk_size with
  | case1 l h =>
      rw [chunksOf]
      simp [h]
  | case2 l h ih =>
      rw [chunksOf]
      simp only [dif_neg h, List.mem_cons]
      intro c hc
      rcases hc with hc | hc
      · subst hc
        exact ⟨h, by simpa using Nat.min_le_left chunk_size l.length⟩
      · exact ih c hc

theorem chunksOf_join_uniform (n : Nat) (hn : 0 < n) :
    ∀ L : List (List Nat), (∀ x ∈ L, x.length = n) →
      chunksOf n L.flatten = L := by
  intro L
  induction L with
  | nil =>
      intro _
      rw [chunksOf]
      simp
  | cons x rest ih =>
      intro hx
      have hxn : x.length = n := hx x (by simp)
      have hxne : x ≠ [] := by
        intro he
        rw [he] at hxn
        simp at hxn
        omega
      have htake : (x ++ rest.flatten).take n = x := by
        rw [← hxn]
        exact List.take_left x rest.flatten
      have hdrop : (x ++ rest.flatten).drop n = rest.flatten := by
        rw [← hxn]
        exact List.drop_left x rest.flatten
      rw [List.flatten_cons, chunksOf]
      rw [dif_neg (by rw [htake]; exact hxne)]
      rw [htake, hdrop, ih (fun y hy => hx y (by simp [hy]))]

theorem _process_file_run_ok (f : List Nat → List Nat) (chunk_size : Nat) (p : String) :
    ∀ (input : List Nat) (iter : Nat),
    _process_file (fun _ => false) (fun c => Except.ok (f c)) chunk_size p input iter =
      ⟨((chunksOf chunk_size input).map f).flatten,
       ((chunksOf chunk_size input).map (fun c => Notification.progress c.length))
         ++ [Notification.completed],
       Outcome.completed⟩ := by
  intro input
  induction input using chunksOf.induct chunk_size with
  | case1 l h =>
      intro iter
      rw [_process_file, chunksOf]
      simp [h]
  | case2 l h ih =>
      intro iter
      rw [_process_file, chunksOf]
      simp only [Bool.false_eq_true, if_false, dif_neg h, ih (iter + 1)]
      simp

/-- C5: in a successful (non-cancelled, non-failed) run of `_process_file`,
the bytes written to the output file are exactly the concatenation, in
input-file order, of the chunk transform applied to the successive
`chunk_size`-byte slices of the input file (slices which concatenate back to
exactly the input), with no header, length field, or trailer added; the run
ends `Completed`. -/
theorem C5_output_is_chunk_concat : ∀ (stop : Nat → Bool)
    (handler : List Nat → Except String (List Nat)) (f : List Nat → List Nat)
    (chunk_size : Nat) (p : String) (input : List Nat) (iter : Nat),
    (∀ j, stop j = false) →
    (∀ c, handler c = Except.ok (f c)) →
    0 < chunk_size →
    (_process_file stop handler chunk_size p input iter).out
        = ((chunksOf chunk_size input).map f).flatten
    ∧ (chunksOf chunk_size input).flatten = input
    ∧ (_process_file stop handler chunk_size p input iter).outcome = Outcome.completed := by
  intro stop handler f chunk_size p input iter hstop hok hcs
  have hs : stop = (fun _ => false) := funext hstop
  have hh : handler = (fun c => Except.ok (f c)) := funext hok
  subst hs
  subst hh
  rw [_process_file_run_ok]
  exact ⟨rfl, chunksOf_join chunk_size hcs input, rfl⟩

/-- C5 witness: a concrete non-cancelled run with an always-succeeding
handler, on the input [1, 2, 3] with chunk size 2. -/
theorem C5_witness :
    (∀ j : Nat, (fun _ : Nat => false) j = false)
    ∧ (∀ c : List Nat,
        (fun c : List Nat => (Except.ok (c.map (fun b => b + 1)) : Except String (List Nat))) c
        = (Except.ok (c.map (fun b => b + 1)) : Except String (List Nat)))
    ∧ 0 < 2
    ∧ ((_process_file (fun _ => false) (fun c : List Nat => Except.ok (c.map (fun b => b + 1)))
          2 "in" [1, 2, 3] 0).out
        = ((chunksOf 2 [1, 2, 3]).map (fun c => c.map (fun b => b + 1))).flatten
      ∧ (chunksOf 2 [1, 2, 3]).flatten = [1, 2, 3]
      ∧ (_process_file (fun _ => false) (fun c : List Nat => Except.ok (c.map (fun b => b + 1)))
          2 "in" [1, 2, 3] 0).outcome = Outcome.completed) :=
  ⟨fun _ => rfl, fun _ => rfl, by decide,
   C5_output_is_chunk_concat (fun _ => false)
     (fun c : List Nat => Except.ok (c.map (fun b => b + 1)))
     (fun c : List Nat => c.map (fun b => b + 1)) 2 "in" [1, 2, 3] 0
     (fun _ => rfl) (fun _ => rfl) (by decide)⟩

/-- C3: every run of `_process_file` emits the `operation_completed` signal
exactly once when it ends `Completed` and never otherwise, emits a
`critical_error` signal exactly once when it ends `Failed` (any raising
handler is caught at the loop boundary) and never otherwise — so a cancelled
run emits no terminal notification at all — and every error notification
names the run's input path.  Totality of the embedding reflects that no
exception propagates past the processing boundary. -/
theorem C3_exactly_one_terminal : ∀ (stop : Nat → Bool)
    (handler : List Nat → Except String (List Nat)) (chunk_size : Nat)
    (p : String) (input : List Nat) (iter : Nat),
    ((_process_file stop handler chunk_size p input iter).notifs.countP isCompletedNotif
      = if (_process_file stop handler chunk_size p input iter).outcome = Outcome.completed
        then 1 else 0)
    ∧ ((_process_file stop handler chunk_size p input iter).notifs.countP isErrorNotif
      = if (_process_file stop handler chunk_size p input iter).outcome = Outcome.failed
        then 1 else 0)
    ∧ (∀ s m, Notification.error s m ∈ (_process_file stop handler chunk_size p input iter).notifs
        → s = p) := by
  intro stop handler chunk_size p input iter
  induction input, iter using _process_file.induct stop handler chunk_size p with
  | case1 input iter hstop =>
      rw [_process_file]
      simp [hstop]
  | case2 input iter hstop htake =>
      have hb : stop iter = false := by simpa using hstop
      rw [_process_file]
      simp [hb, htake, isCompletedNotif, isErrorNotif]
  | case3 input iter hstop htake e he =>
      have hb : stop iter = false := by simpa using hstop
      rw [_process_file]
      simp [hb, htake, he, isCompletedNotif, isErrorNotif]
  | case4 input iter hstop htake pc hpc ih =>
      obtain ⟨ih1, ih2, ih3⟩ := ih
      have hb : stop iter = false := by simpa using hstop
      rw [_process_file]
      simp only [hb, Bool.false_eq_true, if_false, dif_neg htake, hpc]
      refine ⟨?_, ?_, ?_⟩
      · simpa [List.countP_cons, isCompletedNotif] using ih1
      · simpa [List.countP_cons, isErrorNotif] using ih2
      · intro s m hm
        rcases List.mem_cons.mp hm with hm | hm
        · exact absurd hm (by simp)
        · exact ih3 s m hm

/-- C3 witness: a concrete run (successful completion on [9, 9]). -/
theorem C3_witness :
    ((_process_file (fun _ => false) (fun c => Except.ok c) 2 "path" [9, 9] 0).notifs.countP
        isCompletedNotif
      = if (_process_file (fun _ => false) (fun c => Except.ok c) 2 "path" [9, 9] 0).outcome
          = Outcome.completed then 1 else 0)
    ∧ ((_process_file (fun _ => false) (fun c => Except.ok c) 2 "path" [9, 9] 0).notifs.countP
        isErrorNotif
      = if (_process_file (fun _ => false) (fun c => Except.ok c) 2 "path" [9, 9] 0).outcome
          = Outcome.failed then 1 else 0)
    ∧ (∀ s m, Notification.error s m
        ∈ (_process_file (fun _ => false) (fun c => Except.ok c) 2 "path" [9, 9] 0).notifs
        → s = "path") :=
  C3_exactly_one_terminal (fun _ => false) (fun c => Except.ok c) 2 "path" [9, 9] 0

theorem progressDeltas_progress_cons (d : Nat) (l : List Notification) :
    progressDeltas (Notification.progress d :: l) = d :: progressDeltas l := by
  simp [progressDeltas]

theorem sum_take_strict (l : List Nat) (hpos : ∀ d ∈ l, 0 < d) :
    ∀ k, k < l.length → (l.take k).sum < (l.take (k + 1)).sum := by
  intro k hk
  rw [List.sum_take_succ l k hk]
  have hd := hpos (l[k]) (List.getElem_mem hk)
  omega

/-- C6: the progress notifications of ANY run of `_process_file` are the
lengths of an initial segment of the successive input chunks, in
chunk-processing order — one notification per processed chunk, none
duplicated or reordered; every chunk read by the loop is non-empty, so all
deltas are positive and the cumulative byte count is strictly increasing. -/
theorem C6_progress_in_order : ∀ (stop : Nat → Bool)
    (handler : List Nat → Except String (List Nat)) (chunk_size : Nat)
    (p : String) (input : List Nat) (iter : Nat),
    (∃ n, progressDeltas (_process_file stop handler chunk_size p input iter).notifs
        = ((chunksOf chunk_size input).take n).map List.length)
    ∧ (∀ c ∈ chunksOf chunk_size input, 0 < c.length)
    ∧ (∀ k, k < (progressDeltas (_process_file stop handler chunk_size p input iter).notifs).length
        → ((progressDeltas (_process_file stop handler chunk_size p input iter).notifs).take k).sum
          < ((progressDeltas (_process_file stop handler chunk_size p input iter).notifs).take
              (k + 1)).sum) := by
  intro stop handler chunk_size p input iter
  have hpos : ∀ c ∈ chunksOf chunk_size input, 0 < c.length := by
    intro c hc
    exact List.length_pos.mpr (chunksOf_mem chunk_size input c hc).1
  have hex : ∃ n, progressDeltas (_process_file stop handler chunk_size p input iter).notifs
      = ((chunksOf chunk_size input).take n).map List.length := by
    clear hpos
    induction input, iter using _process_file.induct stop handler chunk_size p with
    | case1 input iter hstop =>
        refine ⟨0, ?_⟩
        rw [_process_file]
        simp [hstop, progressDeltas]
    | case2 input iter hstop htake =>
        have hb : stop iter = false := by simpa using hstop
        refine ⟨0, ?_⟩
        rw [_process_file]
        simp [hb, htake, progressDeltas]
    | case3 input iter hstop htake e he =>
        have hb : stop iter = false := by simpa using hstop
        refine ⟨0, ?_⟩
        rw [_process_file]
        simp [hb, htake, he, progressDeltas]
    | case4 input iter hstop htake pc hpc ih =>
        obtain ⟨n, hn⟩ := ih
        have hb : stop iter = false := by simpa using hstop
        refine ⟨n + 1, ?_⟩
        rw [_process_file]
        simp only [hb, Bool.false_eq_true, if_false, dif_neg htake, hpc]
        rw [chunksOf, dif_neg htake]
        simp [progressDeltas_progress_cons, hn, List.take_succ_cons]
  refine ⟨hex, hpos, ?_⟩
  obtain ⟨n, hn⟩ := hex
  apply sum_take_strict
  rw [hn]
  intro d hd
  obtain ⟨c, hc, hcd⟩ := List.mem_map.mp hd
  have hcm : c ∈ chunksOf chunk_size input := List.take_subset n _ hc
  rw [← hcd]
  exact hpos c hcm

/-- C6 witness: a concrete run exercising the ordering theorem. -/
theorem C6_witness :
    (∃ n, progressDeltas (_process_file (fun _ => false) (fun c => Except.ok c) 2 "q" [1, 2, 3] 0).notifs
        = ((chunksOf 2 [1, 2, 3]).take n).map List.length)
    ∧ (∀ c ∈ chunksOf 2 [1, 2, 3], 0 < c.length)
    ∧ (∀ k, k < (progressDeltas (_process_file (fun _ => false) (fun c => Except.ok c) 2 "q"
          [1, 2, 3] 0).notifs).length
        → ((progressDeltas (_process_file (fun _ => false) (fun c => Except.ok c) 2 "q"
            [1, 2, 3] 0).notifs).take k).sum
          < ((progressDeltas (_process_file (fun _ => false) (fun c => Except.ok c) 2 "q"
            [1, 2, 3] 0).notifs).take (k + 1)).sum) :=
  C6_progress_in_order (fun _ => false) (fun c => Except.ok c) 2 "q" [1, 2, 3] 0

/-- C4: with a latched (monotone) stop flag that is set by iteration
`iter + i` while at least `i + 1` chunks remain, the run checks the flag at
the start of every iteration: if it is already set the session stops at once
with no read, no write, and no notification; in every case the run never
emits `operation_completed`, never ends `Completed`, and writes/emits at
most `i` more chunks — output growth halts within the iteration after the
cancel request. -/
theorem C4_cancel_halts : ∀ (stop : Nat → Bool)
    (handler : List Nat → Except String (List Nat)) (chunk_size : Nat)
    (p : String) (input : List Nat) (iter i : Nat),
    (∀ j, stop j = true → stop (j + 1) = true) →
    stop (iter + i) = true →
    i < (chunksOf chunk_size input).length →
    (stop iter = true →
      _process_file stop handler chunk_size p input iter = ⟨[], [], Outcome.cancelled⟩)
    ∧ Notification.completed ∉ (_process_file stop handler chunk_size p input iter).notifs
    ∧ (_process_file stop handler chunk_size p input iter).notifs.countP isProgressNotif ≤ i
    ∧ (_process_file stop handler chunk_size p input iter).outcome ≠ Outcome.completed := by
  intro stop handler chunk_size p input iter i
  have hcancel : ∀ (inp : List Nat) (it : Nat), stop it = true →
      _process_file stop handler chunk_size p inp it = ⟨[], [], Outcome.cancelled⟩ := by
    intro inp it h
    rw [_process_file]
    simp [h]
  induction i generalizing input iter with
  | zero =>
      intro hmono hstop hlen
      have h0 : stop iter = true := by simpa using hstop
      refine ⟨fun _ => hcancel input iter h0, ?_, ?_, ?_⟩ <;>
        rw [hcancel input iter h0] <;> simp
  | succ i ih =>
      intro hmono hstop hlen
      by_cases hsi : stop iter = true
      · refine ⟨fun _ => hcancel input iter hsi, ?_, ?_, ?_⟩ <;>
          rw [hcancel input iter hsi] <;> simp
      · have hb : stop iter = false := by simpa using hsi
        have hne : chunksOf chunk_size input ≠ [] := by
          intro he
          rw [he] at hlen
          simp at hlen
        have htake : input.take chunk_size ≠ [] := by
          intro he
          rw [chunksOf] at hne
          simp [he] at hne
        have hchunks : chunksOf chunk_size input
            = input.take chunk_size :: chunksOf chunk_size (input.drop chunk_size) := by
          rw [chunksOf, dif_neg htake]
        have hlen2 : i < (chunksOf chunk_size (input.drop chunk_size)).length := by
          rw [hchunks] at hlen
          simpa using hlen
        have hstop2 : stop (iter + 1 + i) = true := by
          have harith : iter + 1 + i = iter + (i + 1) := by omega
          rw [harith]
          exact hstop
        obtain ⟨_, ih2, ih3, ih4⟩ := ih (input.drop chunk_size) (iter + 1) hmono hstop2 hlen2
        rw [_process_file]
        cases hh : handler (input.take chunk_size) with
        | error e =>
            simp only [hb, Bool.false_eq_true, if_false, dif_neg htake, hh]
            refine ⟨fun hc => hc.elim, ?_, ?_, ?_⟩ <;> simp [isProgressNotif]
        | ok pc =>
            simp only [hb, Bool.false_eq_true, if_false, dif_neg htake, hh]
            refine ⟨fun hc => hc.elim, ?_, ?_, ?_⟩
            · simpa using ih2
            · simpa [List.countP_cons, isProgressNotif] using ih3
            · simpa using ih4

/-- C4 witness: cancel requested at iteration 1 of a 2-chunk input; the run
never completes and emits at most one progress notification. -/
theorem C4_witness :
    ((fun j : Nat => j != 0) (0 + 1) = true)
    ∧ 1 < (chunksOf 2 [5, 6, 7, 8]).length
    ∧ ((((fun j : Nat => j != 0) 0 = true) →
        _process_file (fun j => j != 0) (fun c => Except.ok c) 2 "w" [5, 6, 7, 8] 0
          = ⟨[], [], Outcome.cancelled⟩)
      ∧ Notification.completed
          ∉ (_process_file (fun j => j != 0) (fun c => Except.ok c) 2 "w" [5, 6, 7, 8] 0).notifs
      ∧ (_process_file (fun j => j != 0) (fun c => Except.ok c) 2 "w" [5, 6, 7, 8] 0).notifs.countP
          isProgressNotif ≤ 1
      ∧ (_process_file (fun j => j != 0) (fun c => Except.ok c) 2 "w" [5, 6, 7, 8] 0).outcome
          ≠ Outcome.completed) := by
  refine ⟨rfl, by simp [chunksOf], ?_⟩
  exact C4_cancel_halts (fun j => j != 0) (fun c => Except.ok c) 2 "w" [5, 6, 7, 8] 0 1
    (fun j _ => by simp) rfl (by simp [chunksOf])

/-- C9: `stop_process_request` sets the stop flag; neither `encrypt_file`
nor `decrypt_file` ever writes it (the manager state they return is
unchanged), and once the flag is set every subsequent `encrypt_file` or
`decrypt_file` call on the same manager returns at its first loop iteration
with no output written and no notification emitted. -/
theorem C9_stop_flag_latched : ∀ (fm : FileManager) (p1 p2 p3 p4 : String)
    (encrypt_chunk decrypt_chunk : List Nat → Except String (List Nat))
    (input1 input2 : List Nat),
    (fm.stop_process_request)._stop_flag = true
    ∧ (fm.encrypt_file p1 p2 encrypt_chunk input1).fst = fm
    ∧ (fm.decrypt_file p3 p4 decrypt_chunk input2).fst = fm
    ∧ (fm._stop_flag = true →
        (fm.encrypt_file p1 p2 encrypt_chunk input1).snd = ⟨[], [], Outcome.cancelled⟩
        ∧ (fm.decrypt_file p3 p4 decrypt_chunk input2).snd = ⟨[], [], Outcome.cancelled⟩) := by
  intro fm p1 p2 p3 p4 enc dec i1 i2
  refine ⟨rfl, rfl, rfl, ?_⟩
  intro h
  constructor <;>
    (simp only [FileManager.encrypt_file, FileManager.decrypt_file]; rw [_process_file]; simp [h])

/-- C9 witness: after one stop request on a fresh manager, both operations
cancel immediately. -/
theorem C9_witness :
    ((FileManager.mk false).stop_process_request._stop_flag = true)
    ∧ (((FileManager.mk false).stop_process_request).encrypt_file "a" "b"
          (fun c => Except.ok c) [1, 2]).snd = ⟨[], [], Outcome.cancelled⟩
    ∧ (((FileManager.mk false).stop_process_request).decrypt_file "c" "d"
          (fun c => Except.ok c) [3]).snd = ⟨[], [], Outcome.cancelled⟩ := by
  refine ⟨rfl, ?_⟩
  exact (C9_stop_flag_latched ((FileManager.mk false).stop_process_request) "a" "b" "c" "d"
    (fun c => Except.ok c) (fun c => Except.ok c) [1, 2] [3]).2.2.2 rfl

/-- C1: running `encrypt_file` (chunk size `Size.ENCRYPTION_CHUNK`) with any
chunk cipher that, on each chunk the run actually reads, produces a
`Size.DECRYPTION_CHUNK`-byte ciphertext inverted by the decryption
transform — the ChunkCipher contract of spec §4.2 — and then `decrypt_file`
(chunk size `Size.DECRYPTION_CHUNK`) on the resulting ciphertext with the
matching inverse, reproduces the original file byte-for-byte, both runs
completing. -/
theorem C1_round_trip : ∀ (fm1 fm2 : FileManager) (E D : List Nat → List Nat)
    (p1 p2 p3 p4 : String) (input : List Nat),
    fm1._stop_flag = false →
    fm2._stop_flag = false →
    (∀ c ∈ chunksOf Size.ENCRYPTION_CHUNK input,
        (E c).length = Size.DECRYPTION_CHUNK ∧ D (E c) = c) →
    (fm2.decrypt_file p3 p4 (fun c => Except.ok (D c))
        ((fm1.encrypt_file p1 p2 (fun c => Except.ok (E c)) input).snd.out)).snd.out = input
    ∧ (fm1.encrypt_file p1 p2 (fun c => Except.ok (E c)) input).snd.outcome = Outcome.completed
    ∧ (fm2.decrypt_file p3 p4 (fun c => Except.ok (D c))
        ((fm1.encrypt_file p1 p2 (fun c => Except.ok (E c)) input).snd.out)).snd.outcome
      = Outcome.completed := by
  intro fm1 fm2 E D p1 p2 p3 p4 input h1 h2 hED
  simp only [FileManager.encrypt_file, FileManager.decrypt_file, h1, h2]
  rw [_process_file_run_ok, _process_file_run_ok]
  have hlens : ∀ x ∈ (chunksOf Size.ENCRYPTION_CHUNK input).map E,
      x.length = Size.DECRYPTION_CHUNK := by
    intro x hx
    obtain ⟨c, hc, hcx⟩ := List.mem_map.mp hx
    rw [← hcx]
    exact (hED c hc).1
  rw [chunksOf_join_uniform Size.DECRYPTION_CHUNK (by decide) _ hlens]
  rw [List.map_map]
  have hDE : (chunksOf Size.ENCRYPTION_CHUNK input).map (D ∘ E)
      = (chunksOf Size.ENCRYPTION_CHUNK input).map id :=
    List.map_congr_left (fun c hc => (hED c hc).2)
  rw [hDE, List.map_id, chunksOf_join Size.ENCRYPTION_CHUNK (by decide)]
  exact ⟨rfl, rfl, rfl⟩

theorem dropWhile_zeros (n : Nat) (l : List Nat) :
    (List.replicate n 0 ++ 1 :: l).dropWhile (fun b => b == 0) = 1 :: l := by
  induction n with
  | zero => simp [List.dropWhile_cons]
  | succ n ih => simp [List.replicate_succ, List.dropWhile_cons, ih]

theorem toyD_toyE (c : List Nat) : toyD (toyE c) = c := by
  simp [toyD, toyE, dropWhile_zeros]

theorem toyE_length (c : List Nat) (hc : c.length ≤ 511) : (toyE c).length = 512 := by
  simp [toyE]
  omega

/-- C1 witness: a concrete round trip through `encrypt_file` then
`decrypt_file` on the file [1, 2, 3] with the toy chunk cipher. -/
theorem C1_witness :
    ((FileManager.mk false)._stop_flag = false)
    ∧ (∀ c ∈ chunksOf Size.ENCRYPTION_CHUNK [1, 2, 3],
        (toyE c).length = Size.DECRYPTION_CHUNK ∧ toyD (toyE c) = c)
    ∧ ((FileManager.mk false).decrypt_file "c" "d" (fun c => Except.ok (toyD c))
        (((FileManager.mk false).encrypt_file "a" "b" (fun c => Except.ok (toyE c))
          [1, 2, 3]).snd.out)).snd.out = [1, 2, 3] := by
  have ht : List.take Size.ENCRYPTION_CHUNK [1, 2, 3] = [1, 2, 3] :=
    List.take_of_length_le (by decide)
  have hd : List.drop Size.ENCRYPTION_CHUNK ([1, 2, 3] : List Nat) = [] :=
    List.drop_eq_nil_of_le (by decide)
  have hch : chunksOf Size.ENCRYPTION_CHUNK [1, 2, 3] = [[1, 2, 3]] := by
    simp [chunksOf, ht, hd]
  have hED : ∀ c ∈ chunksOf Size.ENCRYPTION_CHUNK [1, 2, 3],
      (toyE c).length = Size.DECRYPTION_CHUNK ∧ toyD (toyE c) = c := by
    intro c hc
    rw [hch] at hc
    simp only [List.mem_singleton] at hc
    subst hc
    exact ⟨by rw [toyE_length [1, 2, 3] (by decide)]; rfl, toyD_toyE [1, 2, 3]⟩
  exact ⟨rfl, hED,
    (C1_round_trip (FileManager.mk false) (FileManager.mk false) toyE toyD "a" "b" "c" "d"
      [1, 2, 3] rfl rfl hED).1⟩
